import Mathlib

/-!
Shallow embedding of the semantic-version core of `src/templatepython/_about.py`:
the `_Segment` and `SemanticVersion` classes, the shared `_verify_number`
helper, string parsing (`from_string`) and display (`__str__`), together with
the Python runtime behaviours they rely on (base-10 `int()` conversion of
strings, `str.split('.')`, `str.strip()`, tuple comparison with its
`TypeError`/`NotImplemented` conventions).

Failure is modelled with `Except PyErr` (an exception raised at construction)
or `Option` (for expressions that can raise while being evaluated, such as
tuple comparisons mixing `None` with `int`).
-/

namespace TemplatePython

/-- A Python value handed to `_verify_number`: an `int`, a `str`, or anything
else (`float`, `None`, ...), which the source rejects as "Neither int nor str". -/
inductive PyVal where
  | int (i : Int)
  | str (s : String)
  | other
deriving DecidableEq, Repr

/-- The exceptions the version core can raise.  `valueError` is Python's plain
`ValueError` (used by `from_string` for "too much elements" and by `int()` for
invalid literals); the remaining constructors are the module's own exception
classes, carrying the data their constructors format into the message. -/
inductive PyErr where
  | valueError (msg : String)
  | segmentValueInvalid (value : String) (reason : String)
  | segmentKindSynonymUsed (value : String) (expected : String)
  | segmentKindUnknown (value : String)
  | positiveIntegerValue (field : String) (value : PyVal) (reason : String)
deriving DecidableEq, Repr

/-- The whitespace characters stripped by Python's `str.strip()` and ignored
around `int()` literals (space, tab, newline, carriage return, vertical tab,
form feed; exotic unicode spaces are out of scope). -/
def isPySpace (c : Char) : Bool :=
  c = ' ' || c = '\t' || c = '\n' || c = '\r' || c = Char.ofNat 11 || c = Char.ofNat 12

/-- Embedding of `str.strip()` on a character list: drop leading and trailing whitespace. -/
def pyStrip (l : List Char) : List Char :=
  ((l.dropWhile isPySpace).reverse.dropWhile isPySpace).reverse

/-- Recognizer for the digit part of a Python base-10 integer literal:
one or more ASCII digits, with single underscores allowed between digits
(`12`, `1_2` accepted; ``, `_1`, `1_`, `1__2` rejected). -/
def pyDigitRun : List Char → Bool
  | [] => false
  | [c] => c.isDigit
  | c :: c2 :: rest =>
      c.isDigit && (if c2 = '_' then pyDigitRun rest else pyDigitRun (c2 :: rest))

/-- Decimal value of a digit list, most significant digit first. -/
def digitsVal (l : List Char) : Nat :=
  l.foldl (fun a c => 10 * a + (c.toNat - 48)) 0

/-- Python's `int(s, base=10)` on a string: strip surrounding whitespace, allow
one optional sign, then a digit run (underscores between digits permitted).
`none` models the `ValueError` raised on anything else. -/
def pyIntOfString (s : String) : Option Int :=
  match pyStrip s.data with
  | [] => none
  | c :: rest =>
      if c = '+' then
        if pyDigitRun rest then
          some (Int.ofNat (digitsVal (rest.filter (fun x => !(x == '_'))))) else none
      else if c = '-' then
        if pyDigitRun rest then
          some (-(Int.ofNat (digitsVal (rest.filter (fun x => !(x == '_')))))) else none
      else
        if pyDigitRun (c :: rest) then
          some (Int.ofNat (digitsVal ((c :: rest).filter (fun x => !(x == '_'))))) else none

/-- Embedding of `_verify_number` (`_about.py` lines 52-65): convert a string
via `int(·, base=10)` (wrapping the `ValueError` into
`PositiveIntegerValueError`), reject non-int/non-str values, reject negatives,
and return the (now provably non-negative) integer. -/
def _verify_number (value : PyVal) (field_label : String) : Except PyErr Nat :=
  match value with
  | .str s =>
      match pyIntOfString s with
      | none =>
          .error (.positiveIntegerValue field_label (.str s)
            "invalid literal for int() with base 10")
      | some i =>
          if i < 0 then .error (.positiveIntegerValue field_label (.int i) "Negative")
          else .ok i.toNat
  | .int i =>
      if i < 0 then .error (.positiveIntegerValue field_label (.int i) "Negative")
      else .ok i.toNat
  | .other =>
      .error (.positiveIntegerValue field_label .other "Neither int nor str")

/-- The state of a `_Segment` instance: the `_kind` and `_number` fields, each
possibly `None`. -/
structure SegmentS where
  kind : Option String
  number : Option Nat
deriving DecidableEq, Repr

/-- The part of the string that Python's `$` anchor must reach: without
`re.MULTILINE`, `$` matches at the end of the string or just before one
trailing newline, so a single final `'\n'` is ignored by the regex match. -/
def segmentCore (value : String) : List Char :=
  if value.data.getLast? = some '\n' then value.data.dropLast else value.data

/-- The regex `^([^0-9]+)([0-9]+)$` of `_Segment._SEGMENT_SPLIT_RE`: a match
decomposes the string — up to one trailing newline, which `$` tolerates —
into a non-empty prefix of non-digits followed by a non-empty suffix of
digits. -/
def segmentSplit (value : String) : Option (String × String) :=
  if !((segmentCore value).takeWhile (fun c => !c.isDigit)).isEmpty
      && !((segmentCore value).dropWhile (fun c => !c.isDigit)).isEmpty
      && ((segmentCore value).dropWhile (fun c => !c.isDigit)).all Char.isDigit then
    some (String.mk ((segmentCore value).takeWhile (fun c => !c.isDigit)),
      String.mk ((segmentCore value).dropWhile (fun c => !c.isDigit)))
  else none

/-- Embedding of `_Segment._verify_kind` (`_about.py` lines 93-107): the match
over segment-kind spellings. -/
def verify_kind (value : String) : Except PyErr String :=
  match value with
  | "dev" | "alpha" | "beta" | "rc" | "post" => .ok value
  | "a" => .error (.segmentKindSynonymUsed value "alpha")
  | "b" => .error (.segmentKindSynonymUsed value "beta")
  | "c" | "pre" | "preview" => .error (.segmentKindSynonymUsed value "rc")
  | "r" | "rev" => .error (.segmentKindSynonymUsed value "post")
  | _ => .error (.segmentKindUnknown value)

namespace Segment

/-- Embedding of `_Segment.__init__` (`_about.py` lines 72-83): `None` gives
the absent segment; otherwise the regex must match, then the kind and the
number are verified in that order. -/
def init (value : Option String) : Except PyErr SegmentS :=
  match value with
  | none => .ok ⟨none, none⟩
  | some v =>
      match segmentSplit v with
      | none => .error (.segmentValueInvalid v "Cannot extract parts")
      | some (p, d) => do
          let k ← verify_kind p
          let n ← _verify_number (.str d) "segment.number"
          return ⟨some k, some n⟩

end Segment

/-- The dictionary used by `_Segment.sort_key` (`_about.py` lines 114-121);
`none` models the `KeyError` on a kind outside the table. -/
def segmentRank : Option String → Option Nat
  | some "dev" => some 0
  | some "alpha" => some 1
  | some "beta" => some 2
  | some "rc" => some 3
  | none => some 4
  | some "post" => some 5
  | some _ => none

/-- Embedding of `_Segment.sort_key`: the pair `(rank, number)`;  `none` if the dictionary
lookup raises. -/
def SegmentS.sort_key (s : SegmentS) : Option (Nat × Option Nat) :=
  (segmentRank s.kind).map (fun a => (a, s.number))

/-- Python `<` between an optional number and an optional number:
`int < int` compares, any comparison involving `None` raises `TypeError`. -/
def pyOptNatLt : Option Nat → Option Nat → Option Bool
  | some a, some b => some (decide (a < b))
  | _, _ => none

/-- Python tuple `<` on `(rank, number)` sort keys: find the first component
where the tuples differ under `==` and compare it; equal tuples are not less. -/
def pyKeyLt (a b : Nat × Option Nat) : Option Bool :=
  if a.1 ≠ b.1 then some (decide (a.1 < b.1))
  else if a.2 = b.2 then some false
  else pyOptNatLt a.2 b.2

/-- Embedding of `_Segment.__eq__` against another segment: equality of the two sort keys
(each of which can raise while being computed). -/
def segEq (s t : SegmentS) : Option Bool :=
  match s.sort_key, t.sort_key with
  | some a, some b => some (decide (a = b))
  | _, _ => none

/-- Embedding of `_Segment.__lt__` against another segment: Python `<` on the sort keys. -/
def segLt (s t : SegmentS) : Option Bool :=
  match s.sort_key, t.sort_key with
  | some a, some b => pyKeyLt a b
  | _, _ => none

/-- The tuple `(kind, number)` whose hash `_Segment.__hash__` returns; Python's
`hash` is a deterministic function of this tuple, so equal tuples guarantee
equal hashes. -/
def segHashKey (s : SegmentS) : Option String × Option Nat :=
  (s.kind, s.number)

/-- The state of a `SemanticVersion` instance: three verified numbers and the
owned segment. -/
structure SemVer where
  major : Nat
  minor : Nat
  patch : Nat
  segment : SegmentS
deriving DecidableEq, Repr

namespace SemanticVersion

/-- Embedding of `SemanticVersion.__init__` (`_about.py` lines 170-177):
verify the three numeric fields in order, then build the segment. -/
def init (major minor patch : PyVal) (segment : Option String) :
    Except PyErr SemVer := do
  let M ← _verify_number major "major"
  let m ← _verify_number minor "minor"
  let p ← _verify_number patch "patch"
  let s ← Segment.init segment
  return ⟨M, m, p, s⟩

end SemanticVersion

/-- Embedding of `SemanticVersion.sort_key`: `(major, minor, patch, segment.sort_key)`,
raising whenever the segment's sort key raises. -/
def SemVer.sort_key (v : SemVer) :
    Option (Nat × Nat × Nat × (Nat × Option Nat)) :=
  (v.segment.sort_key).map (fun k => (v.major, v.minor, v.patch, k))

/-- Python tuple `<` on version sort keys: first differing component decides;
at the nested segment-key component, tuple `==` is total and tuple `<` is
`pyKeyLt`. -/
def pyVKeyLt (a b : Nat × Nat × Nat × (Nat × Option Nat)) : Option Bool :=
  if a.1 ≠ b.1 then some (decide (a.1 < b.1))
  else if a.2.1 ≠ b.2.1 then some (decide (a.2.1 < b.2.1))
  else if a.2.2.1 ≠ b.2.2.1 then some (decide (a.2.2.1 < b.2.2.1))
  else if a.2.2.2 = b.2.2.2 then some false
  else pyKeyLt a.2.2.2 b.2.2.2

/-- Embedding of `SemanticVersion.__eq__` against another version: equality of sort keys. -/
def svEq (a b : SemVer) : Option Bool :=
  match a.sort_key, b.sort_key with
  | some ka, some kb => some (decide (ka = kb))
  | _, _ => none

/-- Embedding of `SemanticVersion.__lt__` against another version: Python `<` on sort keys. -/
def svLt (a b : SemVer) : Option Bool :=
  match a.sort_key, b.sort_key with
  | some ka, some kb => pyVKeyLt ka kb
  | _, _ => none

/-- Embedding of `SemanticVersion.__gt__`, as derived by `functools.total_ordering` from
`__lt__` and `__eq__`: `not (self < other) and not (self == other)`. -/
def svGt (a b : SemVer) : Option Bool :=
  match svLt a b, svEq a b with
  | some l, some e => some (!l && !e)
  | _, _ => none

/-- The tuple `(major, minor, patch, segment)` whose hash
`SemanticVersion.__hash__` returns; the segment contributes through its own
hash key. -/
def svHashKey (v : SemVer) : Nat × Nat × Nat × (Option String × Option Nat) :=
  (v.major, v.minor, v.patch, segHashKey v.segment)

/-- The decimal digit characters of a natural number, most significant first:
Python's `str(int)` for non-negative values. -/
def digitChar : Nat → Char
  | 0 => '0' | 1 => '1' | 2 => '2' | 3 => '3' | 4 => '4'
  | 5 => '5' | 6 => '6' | 7 => '7' | 8 => '8' | 9 => '9'
  | _ => '*'

/-- Decimal digit list of a natural number, with explicit fuel so that the
definition is structurally recursive (the fuel in `natDigits` always
suffices). -/
def natDigitsAux : Nat → Nat → List Char
  | 0, _ => []
  | fuel + 1, n =>
      if n < 10 then [digitChar n]
      else natDigitsAux fuel (n / 10) ++ [digitChar (n % 10)]

/-- Decimal digit list of a natural number. -/
def natDigits (n : Nat) : List Char := natDigitsAux (n + 1) n

/-- Python `str()` of a non-negative integer. -/
def pyNatRepr (n : Nat) : String := String.mk (natDigits n)

/-- Embedding of `_Segment.__str__` (`_about.py` lines 141-148): empty for the absent
segment, `kind` followed by `number` otherwise; the inconsistent half-`None`
state makes `isnone` raise, modelled as `none`. -/
def Segment.str (s : SegmentS) : Option String :=
  match s.kind, s.number with
  | none, none => some ""
  | some k, some n => some (k ++ pyNatRepr n)
  | _, _ => none

/-- Embedding of `SemanticVersion.__str__` (`_about.py` lines 268-278): join
`major`, `minor`, `patch` and, only when present, the segment, with dots. -/
def SemVer.str (v : SemVer) : Option String :=
  match v.segment.kind, v.segment.number with
  | none, none =>
      some (pyNatRepr v.major ++ "." ++ pyNatRepr v.minor ++ "." ++ pyNatRepr v.patch)
  | some k, some n =>
      some (pyNatRepr v.major ++ "." ++ pyNatRepr v.minor ++ "." ++ pyNatRepr v.patch
        ++ "." ++ k ++ pyNatRepr n)
  | _, _ => none

/-- Python `str.split('.')` on a character list: the empty string yields one
empty part, and every dot opens a new part. -/
def splitDot : List Char → List (List Char)
  | [] => [[]]
  | c :: r =>
      if c = '.' then [] :: splitDot r
      else
        match splitDot r with
        | h :: t => (c :: h) :: t
        | [] => [[c]]

/-- The `_to_int` helper inside `from_string`: `int(x, base=10)`, raising a
plain `ValueError` on failure. -/
def _to_int (x : List Char) : Except PyErr Int :=
  match pyIntOfString (String.mk x) with
  | none => .error (.valueError ("invalid literal for int() with base 10: " ++ String.mk x))
  | some i => .ok i

/-- The `while len(s) < 4: s.append("")` padding loop of `from_string`. -/
def padParts (parts : List (List Char)) : List (List Char) :=
  parts ++ List.replicate (4 - parts.length) []

/-- The body of `from_string` after the split (`_about.py` lines 209-220):
reject more than 4 parts, pad with empty strings to 4, parse the first three
slots as integers, strip the fourth and treat an empty result as "no segment",
then delegate to `SemanticVersion.__init__`. -/
def fromParts (string : String) (parts : List (List Char)) : Except PyErr SemVer :=
  if parts.length > 4 then
    .error (.valueError ("Cannot parse " ++ string ++ ": too much elements"))
  else do
    let M ← _to_int ((padParts parts).getD 0 [])
    let m ← _to_int ((padParts parts).getD 1 [])
    let p ← _to_int ((padParts parts).getD 2 [])
    SemanticVersion.init (.int M) (.int m) (.int p)
      (if (pyStrip ((padParts parts).getD 3 [])).isEmpty then none
       else some (String.mk (pyStrip ((padParts parts).getD 3 []))))

/-- Embedding of `SemanticVersion.from_string` (`_about.py` lines 199-220). -/
def from_string (string : String) : Except PyErr SemVer :=
  fromParts string (splitDot string.data)

/-- The five accepted segment kinds. -/
def kinds : List String := ["dev", "alpha", "beta", "rc", "post"]

/-- The synonym table of `_verify_kind`: the deprecated spellings and the
canonical kind each one stands for. -/
def synonymExpected : String → Option String
  | "a" => some "alpha"
  | "b" => some "beta"
  | "c" | "pre" | "preview" => some "rc"
  | "r" | "rev" => some "post"
  | _ => none

/-- The segment states reachable through `_Segment.__init__`: both fields
absent, or a recognized kind together with a number. -/
def validSeg (s : SegmentS) : Bool :=
  match s.kind, s.number with
  | none, none => true
  | some k, some _ => decide (k ∈ kinds)
  | _, _ => false

/-- The `(rank, number)` key of a valid segment, with the absent number read
as 0 (an absent segment never compares its number, so the default is inert). -/
def keyN (s : SegmentS) : Nat × Nat :=
  ((segmentRank s.kind).getD 0, s.number.getD 0)

/-- Strict lexicographic order on `(rank, number)` keys. -/
def segKeyLt (x y : Nat × Nat) : Prop :=
  x.1 < y.1 ∨ (x.1 = y.1 ∧ x.2 < y.2)

instance (x y : Nat × Nat) : Decidable (segKeyLt x y) := by
  unfold segKeyLt; infer_instance

/-- The ordering the spec prescribes for versions, transcribed from its words:
lexicographic tuple comparison over `(major, minor, patch, segment.sort_key)`,
ascending, each field compared on its own. -/
def specVersionLt (a b : SemVer) : Prop :=
  a.major < b.major ∨
    (a.major = b.major ∧
      (a.minor < b.minor ∨
        (a.minor = b.minor ∧
          (a.patch < b.patch ∨
            (a.patch = b.patch ∧ segKeyLt (keyN a.segment) (keyN b.segment))))))

instance (a b : SemVer) : Decidable (specVersionLt a b) := by
  unfold specVersionLt; infer_instance

/-- A Python operand handed to a comparison dunder: a segment, a version, or a
value of any unrelated type. -/
inductive PyObj where
  | seg (s : SegmentS)
  | ver (v : SemVer)
  | other
deriving DecidableEq, Repr

/-- Outcome of calling a comparison dunder: a boolean, the `NotImplemented`
sentinel, or a raised exception. -/
inductive CmpRes where
  | bool (b : Bool)
  | notImplemented
  | raised
deriving DecidableEq, Repr

/-- Embedding of `_Segment.__eq__` on an arbitrary operand: `NotImplemented` unless the
operand is a segment. -/
def segEqOp (s : SegmentS) (o : PyObj) : CmpRes :=
  match o with
  | .seg t => match segEq s t with | some b => .bool b | none => .raised
  | _ => .notImplemented

/-- Embedding of `_Segment.__lt__` on an arbitrary operand. -/
def segLtOp (s : SegmentS) (o : PyObj) : CmpRes :=
  match o with
  | .seg t => match segLt s t with | some b => .bool b | none => .raised
  | _ => .notImplemented

/-- Embedding of `SemanticVersion.__eq__` on an arbitrary operand. -/
def svEqOp (v : SemVer) (o : PyObj) : CmpRes :=
  match o with
  | .ver w => match svEq v w with | some b => .bool b | none => .raised
  | _ => .notImplemented

/-- Embedding of `SemanticVersion.__lt__` on an arbitrary operand. -/
def svLtOp (v : SemVer) (o : PyObj) : CmpRes :=
  match o with
  | .ver w => match svLt v w with | some b => .bool b | none => .raised
  | _ => .notImplemented

/-- Version comparison directly from strings, used to state concrete ordering
facts: both strings must parse, and then the parsed versions are compared
with `__lt__`. -/
def ltStr (x y : String) : Bool :=
  match from_string x, from_string y with
  | .ok a, .ok b => svLt a b == some true
  | _, _ => false

/-- Version `>` directly from strings, via the `total_ordering`-derived
`__gt__`. -/
def gtStr (x y : String) : Bool :=
  match from_string x, from_string y with
  | .ok a, .ok b => svGt a b == some true
  | _, _ => false

/-- A directly-constructed version with no segment. -/
def verMk (M m p : Nat) : SemVer := ⟨M, m, p, ⟨none, none⟩⟩

/-! ### Character and digit facts -/

theorem isDigit_ne_dot {c : Char} (h : c.isDigit = true) : c ≠ '.' := by
  intro hc; subst hc; exact absurd h (by decide)

theorem isDigit_ne_plus {c : Char} (h : c.isDigit = true) : c ≠ '+' := by
  intro hc; subst hc; exact absurd h (by decide)

theorem isDigit_ne_minus {c : Char} (h : c.isDigit = true) : c ≠ '-' := by
  intro hc; subst hc; exact absurd h (by decide)

theorem isDigit_ne_underscore {c : Char} (h : c.isDigit = true) : c ≠ '_' := by
  intro hc; subst hc; exact absurd h (by decide)

theorem isDigit_not_space {c : Char} (h : c.isDigit = true) : isPySpace c = false := by
  cases hc : isPySpace c with
  | false => rfl
  | true =>
    exfalso
    simp only [isPySpace, Bool.or_eq_true, decide_eq_true_eq] at hc
    rcases hc with ((((rfl | rfl) | rfl) | rfl) | rfl) | rfl <;> exact absurd h (by decide)

theorem digitChar_isDigit {d : Nat} (h : d < 10) : (digitChar d).isDigit = true := by
  interval_cases d <;> decide

theorem digitChar_val {d : Nat} (h : d < 10) : (digitChar d).toNat - 48 = d := by
  interval_cases d <;> decide

theorem digitsVal_concat (l : List Char) (c : Char) :
    digitsVal (l ++ [c]) = 10 * digitsVal l + (c.toNat - 48) := by
  simp [digitsVal, List.foldl_append]

theorem natDigitsAux_spec (fuel : Nat) :
    ∀ n, n < fuel →
      natDigitsAux fuel n ≠ [] ∧
      (∀ c ∈ natDigitsAux fuel n, c.isDigit = true) ∧
      digitsVal (natDigitsAux fuel n) = n := by
  induction fuel with
  | zero => intro n h; omega
  | succ f ih =>
    intro n h
    simp only [natDigitsAux]
    split
    · rename_i hlt
      have hv := digitChar_val hlt
      refine ⟨by simp, ?_, ?_⟩
      · intro c hc
        simp only [List.mem_singleton] at hc
        subst hc
        exact digitChar_isDigit hlt
      · simp only [digitsVal, List.foldl]
        omega
    · rename_i hge
      have hdiv : n / 10 < f := by
        have hdlt : n / 10 < n := Nat.div_lt_self (by omega) (by omega)
        omega
      obtain ⟨ih1, ih2, ih3⟩ := ih (n / 10) hdiv
      have hm : n % 10 < 10 := Nat.mod_lt _ (by omega)
      refine ⟨by simp [ih1], ?_, ?_⟩
      · intro c hc
        rcases List.mem_append.mp hc with hc | hc
        · exact ih2 c hc
        · simp only [List.mem_singleton] at hc
          subst hc
          exact digitChar_isDigit hm
      · rw [digitsVal_concat, ih3]
        have hv := digitChar_val hm
        omega

theorem natDigits_ne_nil (n : Nat) : natDigits n ≠ [] :=
  (natDigitsAux_spec (n + 1) n (by omega)).1

theorem natDigits_all_digit (n : Nat) : ∀ c ∈ natDigits n, c.isDigit = true :=
  (natDigitsAux_spec (n + 1) n (by omega)).2.1

theorem digitsVal_natDigits (n : Nat) : digitsVal (natDigits n) = n :=
  (natDigitsAux_spec (n + 1) n (by omega)).2.2

/-! ### Stripping and splitting -/

theorem pyStrip_eq_rdropWhile (l : List Char) :
    pyStrip l = (l.dropWhile isPySpace).rdropWhile isPySpace := rfl

theorem dropWhile_eq_self_of_all {p : Char → Bool} {l : List Char}
    (h : ∀ c ∈ l, p c = false) : l.dropWhile p = l := by
  cases l with
  | nil => rfl
  | cons c t => simp [List.dropWhile_cons, h c (List.mem_cons_self c t)]

theorem pyStrip_eq_self_of_all {l : List Char}
    (h : ∀ c ∈ l, isPySpace c = false) : pyStrip l = l := by
  unfold pyStrip
  rw [dropWhile_eq_self_of_all h, dropWhile_eq_self_of_all, List.reverse_reverse]
  intro c hc
  exact h c (List.mem_reverse.mp hc)

theorem pyStrip_idem (l : List Char) : pyStrip (pyStrip l) = pyStrip l := by
  rw [pyStrip_eq_rdropWhile, pyStrip_eq_rdropWhile]
  have h1 : ((l.dropWhile isPySpace).rdropWhile isPySpace).dropWhile isPySpace
      = (l.dropWhile isPySpace).rdropWhile isPySpace := by
    rcases hB : (l.dropWhile isPySpace).rdropWhile isPySpace with _ | ⟨x, xs⟩
    · rfl
    · obtain ⟨t, ht⟩ :=
        List.rdropWhile_prefix (p := isPySpace) (l := l.dropWhile isPySpace)
      rw [hB] at ht
      have hx : (l.dropWhile isPySpace).head? = some x := by
        rw [← ht]; simp
      have h0 := List.head?_dropWhile_not isPySpace l
      rw [hx] at h0
      simp only at h0
      simp [List.dropWhile_cons, h0]
  rw [h1, List.rdropWhile_idempotent]

/-! ### Parsing digit strings -/

theorem pyDigitRun_of_all_digit {l : List Char} (h1 : l ≠ [])
    (h2 : ∀ c ∈ l, c.isDigit = true) : pyDigitRun l = true := by
  induction l with
  | nil => exact absurd rfl h1
  | cons c t ih =>
    cases t with
    | nil => simpa [pyDigitRun] using h2 c (by simp)
    | cons c2 r =>
      have hc := h2 c (by simp)
      have hne := isDigit_ne_underscore (h2 c2 (by simp))
      have ht := ih (by simp) (fun x hx => h2 x (List.mem_cons_of_mem _ hx))
      simp [pyDigitRun, hc, hne, ht]

theorem filter_underscore_of_all_digit {l : List Char}
    (h : ∀ c ∈ l, c.isDigit = true) : l.filter (fun x => !(x == '_')) = l := by
  induction l with
  | nil => rfl
  | cons c t ih =>
    have hc := isDigit_ne_underscore (h c (by simp))
    have ht := ih (fun x hx => h x (List.mem_cons_of_mem _ hx))
    simp [List.filter_cons, hc, ht]

theorem pyIntOfString_all_digit {l : List Char} (h1 : l ≠ [])
    (h2 : ∀ c ∈ l, c.isDigit = true) :
    pyIntOfString (String.mk l) = some (Int.ofNat (digitsVal l)) := by
  have hs : pyStrip (String.mk l).data = l :=
    pyStrip_eq_self_of_all (fun c hc => isDigit_not_space (h2 c hc))
  unfold pyIntOfString
  rw [hs]
  rcases l with _ | ⟨c, t⟩
  · exact absurd rfl h1
  · have hc := h2 c (by simp)
    have hrun := pyDigitRun_of_all_digit (l := c :: t) (by simp) h2
    have hfil := filter_underscore_of_all_digit (l := c :: t) h2
    simp [isDigit_ne_plus hc, isDigit_ne_minus hc, hrun, hfil]

theorem to_int_natDigits (n : Nat) : _to_int (natDigits n) = .ok (n : Int) := by
  unfold _to_int
  rw [pyIntOfString_all_digit (natDigits_ne_nil n) (natDigits_all_digit n),
    digitsVal_natDigits]
  rfl

/-! ### Splitting on dots -/

theorem splitDot_append_dot {a r : List Char} (h : ∀ c ∈ a, c ≠ '.') :
    splitDot (a ++ '.' :: r) = a :: splitDot r := by
  induction a with
  | nil => simp [splitDot]
  | cons c t ih =>
    have hc := h c (by simp)
    have ht := ih (fun x hx => h x (List.mem_cons_of_mem _ hx))
    simp [splitDot, hc, ht]

theorem splitDot_no_dot {a : List Char} (h : ∀ c ∈ a, c ≠ '.') :
    splitDot a = [a] := by
  induction a with
  | nil => rfl
  | cons c t ih =>
    have hc := h c (by simp)
    have ht := ih (fun x hx => h x (List.mem_cons_of_mem _ hx))
    simp [splitDot, hc, ht]

/-! ### Constructors on non-negative integers -/

theorem verify_number_ofNat (M : Nat) (f : String) :
    _verify_number (.int (M : Int)) f = .ok M := by
  simp only [_verify_number]
  rw [if_neg (by omega)]
  simp

theorem sv_init_ofNat (M m p : Nat) :
    SemanticVersion.init (.int (M : Int)) (.int (m : Int))
      (.int (p : Int)) none = .ok (verMk M m p) := by
  simp [SemanticVersion.init, verify_number_ofNat, Segment.init, verMk,
    bind, Except.bind, pure, Except.pure]

theorem natDigits_not_dot (n : Nat) : ∀ c ∈ natDigits n, c ≠ '.' :=
  fun c hc => isDigit_ne_dot (natDigits_all_digit n c hc)

theorem from_string_display (M m p : Nat) :
    from_string (pyNatRepr M ++ "." ++ pyNatRepr m ++ "." ++ pyNatRepr p)
      = .ok (verMk M m p) := by
  have hdata : (pyNatRepr M ++ "." ++ pyNatRepr m ++ "." ++ pyNatRepr p).data
      = natDigits M ++ '.' :: (natDigits m ++ '.' :: natDigits p) := by
    simp [pyNatRepr, String.data_append]
  rw [from_string, hdata, splitDot_append_dot (natDigits_not_dot M),
    splitDot_append_dot (natDigits_not_dot m), splitDot_no_dot (natDigits_not_dot p)]
  rw [fromParts]
  rw [if_neg (by simp)]
  simp [padParts, to_int_natDigits, bind, Except.bind, List.getD, pyStrip,
    sv_init_ofNat]

/-! ### Reachable segment states -/

theorem validSeg_cases {s : SegmentS} (h : validSeg s = true) :
    s = ⟨none, none⟩ ∨
      ∃ k n, s = ⟨some k, some n⟩ ∧
        (k = "dev" ∨ k = "alpha" ∨ k = "beta" ∨ k = "rc" ∨ k = "post") := by
  obtain ⟨k0, n0⟩ := s
  cases k0 with
  | none =>
    cases n0 with
    | none => exact Or.inl rfl
    | some n => simp [validSeg] at h
  | some k =>
    cases n0 with
    | none => simp [validSeg] at h
    | some n =>
      right
      refine ⟨k, n, rfl, ?_⟩
      simpa [validSeg, kinds] using h

theorem valid_rank {s : SegmentS} (h : validSeg s = true) :
    (s.number = none ∧ segmentRank s.kind = some 4 ∧ keyN s = (4, 0)) ∨
    (∃ n r, s.number = some n ∧ segmentRank s.kind = some r ∧ r ≠ 4 ∧
      keyN s = (r, n)) := by
  rcases validSeg_cases h with rfl | ⟨k, n, rfl, hk⟩
  · exact Or.inl ⟨rfl, rfl, rfl⟩
  · right
    rcases hk with rfl | rfl | rfl | rfl | rfl
    · exact ⟨n, 0, rfl, rfl, by decide, rfl⟩
    · exact ⟨n, 1, rfl, rfl, by decide, rfl⟩
    · exact ⟨n, 2, rfl, rfl, by decide, rfl⟩
    · exact ⟨n, 3, rfl, rfl, by decide, rfl⟩
    · exact ⟨n, 5, rfl, rfl, by decide, rfl⟩

theorem verify_kind_ok {p k : String} (h : verify_kind p = .ok k) :
    k = p ∧ decide (p ∈ kinds) = true := by
  unfold verify_kind at h
  split at h <;> simp_all [kinds]

theorem segment_init_valid {v : Option String} {s : SegmentS}
    (h : Segment.init v = .ok s) : validSeg s = true := by
  cases v with
  | none =>
    simp only [Segment.init] at h
    cases h
    rfl
  | some str =>
    simp only [Segment.init] at h
    cases hsp : segmentSplit str with
    | none => rw [hsp] at h; cases h
    | some pd =>
      obtain ⟨p, d⟩ := pd
      rw [hsp] at h
      simp only [bind, Except.bind] at h
      cases hk : verify_kind p with
      | error e => rw [hk] at h; cases h
      | ok k =>
        rw [hk] at h
        cases hn : _verify_number (.str d) "segment.number" with
        | error e => rw [hn] at h; cases h
        | ok n =>
          rw [hn] at h
          simp only [pure, Except.pure] at h
          cases h
          obtain ⟨rfl, hmem⟩ := verify_kind_ok hk
          simpa [validSeg] using hmem

theorem sv_init_valid {a b c : PyVal} {sg : Option String} {v : SemVer}
    (h : SemanticVersion.init a b c sg = .ok v) : validSeg v.segment = true := by
  unfold SemanticVersion.init at h
  simp only [bind, Except.bind] at h
  cases h1 : _verify_number a "major" with
  | error e => rw [h1] at h; cases h
  | ok M =>
    rw [h1] at h
    cases h2 : _verify_number b "minor" with
    | error e => rw [h2] at h; cases h
    | ok m =>
      rw [h2] at h
      cases h3 : _verify_number c "patch" with
      | error e => rw [h3] at h; cases h
      | ok p =>
        rw [h3] at h
        cases h4 : Segment.init sg with
        | error e => rw [h4] at h; cases h
        | ok s =>
          rw [h4] at h
          simp only [pure, Except.pure] at h
          cases h
          exact segment_init_valid h4

theorem from_string_valid {str : String} {v : SemVer}
    (h : from_string str = .ok v) : validSeg v.segment = true := by
  unfold from_string fromParts at h
  split at h
  · cases h
  · simp only [bind, Except.bind] at h
    cases h1 : _to_int ((padParts (splitDot str.data)).getD 0 []) with
    | error e => rw [h1] at h; cases h
    | ok M =>
      rw [h1] at h
      cases h2 : _to_int ((padParts (splitDot str.data)).getD 1 []) with
      | error e => rw [h2] at h; cases h
      | ok m =>
        rw [h2] at h
        cases h3 : _to_int ((padParts (splitDot str.data)).getD 2 []) with
        | error e => rw [h3] at h; cases h
        | ok p =>
          rw [h3] at h
          exact sv_init_valid h

/-! ### Ordering characterization -/

theorem segLt_valid {s t : SegmentS} (hs : validSeg s = true)
    (ht : validSeg t = true) :
    segLt s t = some (decide (segKeyLt (keyN s) (keyN t))) := by
  rcases valid_rank hs with ⟨hn, hr, hk⟩ | ⟨n, r, hn, hr, hr4, hk⟩ <;>
    rcases valid_rank ht with ⟨hn', hr', hk'⟩ | ⟨n', r', hn', hr', hr4', hk'⟩ <;>
    simp only [segLt, SegmentS.sort_key, hn, hn', hr, hr', hk, hk',
      Option.map_some', pyKeyLt, pyOptNatLt, segKeyLt] <;>
    split_ifs <;>
    simp_all [decide_eq_decide] <;>
    omega

theorem segEq_valid {s t : SegmentS} (hs : validSeg s = true)
    (ht : validSeg t = true) :
    segEq s t = some (decide (keyN s = keyN t)) := by
  rcases valid_rank hs with ⟨hn, hr, hk⟩ | ⟨n, r, hn, hr, hr4, hk⟩ <;>
    rcases valid_rank ht with ⟨hn', hr', hk'⟩ | ⟨n', r', hn', hr', hr4', hk'⟩ <;>
    simp only [segEq, SegmentS.sort_key, hn, hn', hr, hr', hk, hk',
      Option.map_some'] <;>
    simp [Prod.ext_iff] <;>
    omega

theorem svLt_valid {a b : SemVer} (ha : validSeg a.segment = true)
    (hb : validSeg b.segment = true) :
    svLt a b = some (decide (specVersionLt a b)) := by
  rcases valid_rank ha with ⟨hn, hr, hk⟩ | ⟨n, r, hn, hr, hr4, hk⟩ <;>
    rcases valid_rank hb with ⟨hn', hr', hk'⟩ | ⟨n', r', hn', hr', hr4', hk'⟩ <;>
    simp only [svLt, SemVer.sort_key, SegmentS.sort_key, hn, hn', hr, hr',
      Option.map_some', pyVKeyLt, pyKeyLt, pyOptNatLt, specVersionLt, segKeyLt,
      hk, hk'] <;>
    split_ifs <;>
    simp_all [decide_eq_decide, Prod.ext_iff] <;>
    omega

theorem svEq_valid {a b : SemVer} (ha : validSeg a.segment = true)
    (hb : validSeg b.segment = true) :
    svEq a b = some (decide
      (a.major = b.major ∧ a.minor = b.minor ∧ a.patch = b.patch ∧
        keyN a.segment = keyN b.segment)) := by
  rcases valid_rank ha with ⟨hn, hr, hk⟩ | ⟨n, r, hn, hr, hr4, hk⟩ <;>
    rcases valid_rank hb with ⟨hn', hr', hk'⟩ | ⟨n', r', hn', hr', hr4', hk'⟩ <;>
    simp only [svEq, SemVer.sort_key, SegmentS.sort_key, hn, hn', hr, hr',
      Option.map_some', hk, hk'] <;>
    simp [Prod.ext_iff] <;>
    omega

/-! ### Claim theorems -/

/-- C2 — Segment ordering is a strict total order over successfully
constructed segments, given by the key `(rank, number)` with ranks
dev=0, alpha=1, beta=2, rc=3, absent=4, post=5: it is irreflexive, transitive
and trichotomous, within equal kind segments order by number ascending,
two segments are equal iff their `(rank, number)` pairs are equal, and two
absent segments are equal. -/
theorem segment_strict_total_order
    (vs vt vu : Option String) (s t u : SegmentS)
    (hs : Segment.init vs = .ok s) (ht : Segment.init vt = .ok t)
    (hu : Segment.init vu = .ok u) :
    (segmentRank (some "dev") = some 0 ∧ segmentRank (some "alpha") = some 1 ∧
      segmentRank (some "beta") = some 2 ∧ segmentRank (some "rc") = some 3 ∧
      segmentRank none = some 4 ∧ segmentRank (some "post") = some 5) ∧
    segLt s s = some false ∧
    (segLt s t = some true → segLt t u = some true → segLt s u = some true) ∧
    (segLt s t = some true ∨ segEq s t = some true ∨ segLt t s = some true) ∧
    (segEq s t = some true → segLt s t = some false ∧ segLt t s = some false) ∧
    (segLt s t = some true → segEq s t = some false ∧ segLt t s = some false) ∧
    (segEq s t = some true ↔ keyN s = keyN t) ∧
    (s.kind = t.kind →
      (segLt s t = some true ↔ s.number.getD 0 < t.number.getD 0)) ∧
    (s.kind = none → t.kind = none → segEq s t = some true) := by
  have Hs := segment_init_valid hs
  have Ht := segment_init_valid ht
  have Hu := segment_init_valid hu
  refine ⟨⟨rfl, rfl, rfl, rfl, rfl, rfl⟩, ?_, ?_, ?_, ?_, ?_, ?_, ?_, ?_⟩
  · simp only [segLt_valid Hs Hs, Option.some.injEq]
    rw [decide_eq_false_iff_not]
    unfold segKeyLt
    omega
  · simp only [segLt_valid Hs Ht, segLt_valid Ht Hu, segLt_valid Hs Hu,
      Option.some.injEq, decide_eq_true_eq]
    unfold segKeyLt
    omega
  · simp only [segLt_valid Hs Ht, segLt_valid Ht Hs, segEq_valid Hs Ht,
      Option.some.injEq, decide_eq_true_eq]
    unfold segKeyLt
    simp only [Prod.ext_iff]
    omega
  · simp only [segLt_valid Hs Ht, segLt_valid Ht Hs, segEq_valid Hs Ht,
      Option.some.injEq, decide_eq_true_eq, decide_eq_false_iff_not]
    unfold segKeyLt
    simp only [Prod.ext_iff]
    omega
  · simp only [segLt_valid Hs Ht, segLt_valid Ht Hs, segEq_valid Hs Ht,
      Option.some.injEq, decide_eq_true_eq, decide_eq_false_iff_not]
    unfold segKeyLt
    simp only [Prod.ext_iff]
    omega
  · simp only [segEq_valid Hs Ht, Option.some.injEq, decide_eq_true_eq]
  · intro hkind
    simp only [segLt_valid Hs Ht, Option.some.injEq, decide_eq_true_eq]
    unfold segKeyLt
    simp [keyN, hkind]
  · intro h1 h2
    have hn1 : s.number = none := by
      rcases validSeg_cases Hs with rfl | ⟨k, n, rfl, _⟩
      · rfl
      · simp at h1
    have hn2 : t.number = none := by
      rcases validSeg_cases Ht with rfl | ⟨k, n, rfl, _⟩
      · rfl
      · simp at h2
    simp [segEq_valid Hs Ht, keyN, h1, h2, hn1, hn2]

theorem segment_strict_total_order_witness :
    segLt ⟨some "dev", some 1⟩ ⟨some "alpha", some 2⟩ = some true ∨
      segEq ⟨some "dev", some 1⟩ ⟨some "alpha", some 2⟩ = some true ∨
      segLt ⟨some "alpha", some 2⟩ ⟨some "dev", some 1⟩ = some true :=
  (segment_strict_total_order (some "dev1") (some "alpha2") none
    ⟨some "dev", some 1⟩ ⟨some "alpha", some 2⟩ ⟨none, none⟩
    rfl rfl rfl).2.2.2.1

/-- C1 — `SemanticVersion` ordering is lexicographic tuple comparison over
`(major, minor, patch, segment.sort_key)`, ascending: `__lt__` on versions
with reachable segments agrees with the spec's lexicographic order, the chain
`1.0.0.dev1 < 1.0.0.alpha1 < 1.0.0.beta1 < 1.0.0.rc1 < 1.0.0 < 1.0.0.post1
< 1.0.1` holds, and `from_string "10.0.0" > from_string "9.0.0"`. -/
theorem semver_ordering_lex (a b : SemVer)
    (ha : validSeg a.segment = true) (hb : validSeg b.segment = true) :
    (svLt a b = some true ↔ specVersionLt a b) ∧
    ltStr "1.0.0.dev1" "1.0.0.alpha1" = true ∧
    ltStr "1.0.0.alpha1" "1.0.0.beta1" = true ∧
    ltStr "1.0.0.beta1" "1.0.0.rc1" = true ∧
    ltStr "1.0.0.rc1" "1.0.0" = true ∧
    ltStr "1.0.0" "1.0.0.post1" = true ∧
    ltStr "1.0.0.post1" "1.0.1" = true ∧
    gtStr "10.0.0" "9.0.0" = true := by
  refine ⟨?_, rfl, rfl, rfl, rfl, rfl, rfl, rfl⟩
  rw [svLt_valid ha hb]
  simp

theorem semver_ordering_lex_witness :
    svLt (verMk 1 0 0) ⟨1, 0, 0, ⟨some "dev", some 1⟩⟩ = some true ↔
      specVersionLt (verMk 1 0 0) ⟨1, 0, 0, ⟨some "dev", some 1⟩⟩ :=
  (semver_ordering_lex (verMk 1 0 0) ⟨1, 0, 0, ⟨some "dev", some 1⟩⟩ rfl rfl).1

/-- C3 — Round-trip: for every non-negative `(major, minor, patch)` with
no segment, constructing the version, converting it with `str` and parsing the
result back with `from_string` yields the same version again, which compares
equal (`==`) to the original. -/
theorem roundtrip_no_segment (M m p : Nat) :
    SemanticVersion.init (.int (M : Int)) (.int (m : Int)) (.int (p : Int)) none
      = .ok (verMk M m p) ∧
    SemVer.str (verMk M m p)
      = some (pyNatRepr M ++ "." ++ pyNatRepr m ++ "." ++ pyNatRepr p) ∧
    from_string (pyNatRepr M ++ "." ++ pyNatRepr m ++ "." ++ pyNatRepr p)
      = .ok (verMk M m p) ∧
    svEq (verMk M m p) (verMk M m p) = some true := by
  refine ⟨sv_init_ofNat M m p, rfl, from_string_display M m p, ?_⟩
  simp [svEq, SemVer.sort_key, SegmentS.sort_key, segmentRank, verMk]

theorem splitDot_ne_nil (l : List Char) : splitDot l ≠ [] := by
  cases l with
  | nil => simp [splitDot]
  | cons c r =>
    simp only [splitDot]
    split
    · simp
    · split <;> simp

theorem to_int_nil :
    _to_int [] = .error (.valueError "invalid literal for int() with base 10: ") := by
  have h2 : ("invalid literal for int() with base 10: " ++ String.mk [] : String)
      = "invalid literal for int() with base 10: " := by decide
  unfold _to_int
  rw [show pyIntOfString (String.mk []) = none from rfl, h2]

theorem to_int_error {x : List Char} {e : PyErr} (h : _to_int x = .error e) :
    ∃ msg, e = .valueError msg := by
  unfold _to_int at h
  cases hp : pyIntOfString (String.mk x) with
  | none =>
    rw [hp] at h
    exact ⟨_, (Except.error.injEq _ _).mp h.symm⟩
  | some i => rw [hp] at h; cases h

/-- C4 — `from_string` fails with "too much elements" on every input that
splits into more than 4 dot-separated parts, and fails with Python's plain
`ValueError` from integer parsing (not one of the module's own exception
classes) on every input with fewer than 3 parts, since padding to 4 slots
leaves an empty numeric slot; in particular `from_string "1.2"` fails this
way — patch is effectively mandatory. -/
theorem from_string_arity_errors (s t : String)
    (h4 : (splitDot s.data).length > 4)
    (h3 : (splitDot t.data).length < 3) :
    from_string s
      = .error (.valueError ("Cannot parse " ++ s ++ ": too much elements")) ∧
    (∃ msg, from_string t = .error (.valueError msg)) ∧
    from_string "1.2"
      = .error (.valueError "invalid literal for int() with base 10: ") := by
  refine ⟨?_, ?_, rfl⟩
  · unfold from_string fromParts
    rw [if_pos h4]
  · rcases hP : splitDot t.data with _ | ⟨a, P1⟩
    · exact absurd hP (splitDot_ne_nil _)
    · rcases P1 with _ | ⟨b, P2⟩
      · have hfs : from_string t = fromParts t [a] := by rw [from_string, hP]
        rw [hfs, fromParts, if_neg (by simp)]
        simp only [bind, Except.bind,
          show (padParts [a]).getD 0 [] = a from rfl,
          show (padParts [a]).getD 1 [] = [] from rfl,
          show (padParts [a]).getD 2 [] = [] from rfl,
          show (padParts [a]).getD 3 [] = [] from rfl]
        cases h1 : _to_int a with
        | error e =>
          obtain ⟨msg, rfl⟩ := to_int_error h1
          exact ⟨msg, rfl⟩
        | ok M => exact ⟨_, by rw [to_int_nil]⟩
      · rcases P2 with _ | ⟨c, P3⟩
        · have hfs : from_string t = fromParts t [a, b] := by rw [from_string, hP]
          rw [hfs, fromParts, if_neg (by simp)]
          simp only [bind, Except.bind,
            show (padParts [a, b]).getD 0 [] = a from rfl,
            show (padParts [a, b]).getD 1 [] = b from rfl,
            show (padParts [a, b]).getD 2 [] = [] from rfl,
            show (padParts [a, b]).getD 3 [] = [] from rfl]
          cases h1 : _to_int a with
          | error e =>
            obtain ⟨msg, rfl⟩ := to_int_error h1
            exact ⟨msg, rfl⟩
          | ok M =>
            cases h2 : _to_int b with
            | error e =>
              obtain ⟨msg, rfl⟩ := to_int_error h2
              exact ⟨msg, rfl⟩
            | ok m => exact ⟨_, by rw [to_int_nil]⟩
        · rw [hP] at h3
          simp only [List.length_cons] at h3
          omega

theorem from_string_arity_errors_witness :
    from_string "1.2.3.4.5"
      = .error (.valueError ("Cannot parse " ++ "1.2.3.4.5"
          ++ ": too much elements")) ∧
    (∃ msg, from_string "1.2" = .error (.valueError msg)) ∧
    from_string "1.2"
      = .error (.valueError "invalid literal for int() with base 10: ") :=
  from_string_arity_errors "1.2.3.4.5" "1.2" (by decide) (by decide)

theorem verify_kind_synonym {p e : String} (h : synonymExpected p = some e) :
    verify_kind p = .error (.segmentKindSynonymUsed p e) := by
  unfold synonymExpected at h
  split at h <;> simp_all [verify_kind]

theorem verify_kind_unknown {p : String} (h1 : synonymExpected p = none)
    (h2 : decide (p ∈ kinds) = false) :
    verify_kind p = .error (.segmentKindUnknown p) := by
  unfold verify_kind
  split <;> simp_all [kinds, synonymExpected]

theorem verify_kind_mem {p : String} (h : decide (p ∈ kinds) = true) :
    verify_kind p = .ok p := by
  simp only [decide_eq_true_eq, kinds, List.mem_cons, List.mem_singleton,
    List.not_mem_nil, or_false] at h
  rcases h with rfl | rfl | rfl | rfl | rfl <;> rfl

theorem segmentSplit_digits {s p d : String} (h : segmentSplit s = some (p, d)) :
    d.data ≠ [] ∧ ∀ c ∈ d.data, c.isDigit = true := by
  unfold segmentSplit at h
  split at h
  · rename_i hcond
    simp only [Option.some.injEq, Prod.mk.injEq] at h
    obtain ⟨hp, hd⟩ := h
    subst hd
    simp only [Bool.and_eq_true, Bool.not_eq_true'] at hcond
    obtain ⟨⟨hp1, hd1⟩, hall⟩ := hcond
    refine ⟨?_, ?_⟩
    · intro hnil
      rw [show (String.mk ((segmentCore s).dropWhile fun c => !c.isDigit)).data
          = (segmentCore s).dropWhile (fun c => !c.isDigit) from rfl] at hnil
      rw [hnil] at hd1
      simp at hd1
    · intro c hc
      exact List.all_eq_true.mp hall c hc
  · cases h

theorem verify_number_digits {l : List Char} {f : String} (h1 : l ≠ [])
    (h2 : ∀ c ∈ l, c.isDigit = true) :
    _verify_number (.str (String.mk l)) f = .ok (digitsVal l) := by
  simp only [_verify_number, pyIntOfString_all_digit h1 h2]
  split
  · rename_i hlt
    exact absurd hlt (Int.not_lt.mpr (Int.ofNat_nonneg _))
  · rfl

/-- C5 counterexample — the claim reads the pattern as "one or more non-digit
characters immediately followed by one or more digit characters" with nothing
else, and says every other non-empty string raises
`SegmentValueInvalidError`.  But Python's `$` (without `re.MULTILINE`) also
matches just before a single trailing newline, so the source's `re.match`
accepts `"dev1\n"` with groups `("dev", "1")` and `_Segment("dev1\n")`
constructs successfully — even though the string ends in a non-digit and so
is not of the claimed non-digits-then-digits shape. -/
theorem segment_trailing_newline_accepted :
    Segment.init (some "dev1\n") = .ok ⟨some "dev", some 1⟩ ∧
    "dev1\n".data.getLast? = some '\n' ∧ ('\n').isDigit = false := by
  exact ⟨rfl, rfl, by decide⟩

/-- C5 (amended) — Segment construction from a non-empty string classifies
failures exhaustively: no match of the regex — a non-empty run of non-digits
followed by a non-empty run of digits, where `$` tolerates one trailing
newline — raises `SegmentValueInvalidError` with the offending value and a
reason; a matching string whose prefix is a synonym (a→alpha, b→beta,
c/pre/preview→rc, r/rev→post) raises `SegmentKindSynonymUsedError` with the
synonym and the canonical kind (never the unknown-kind error); any other
unrecognized prefix raises `SegmentKindUnknownError`; the prefixes
dev/alpha/beta/rc/post are accepted. -/
theorem segment_failure_classification (s p d : String) (hne : s ≠ "") :
    (segmentSplit s = none →
      Segment.init (some s)
        = .error (.segmentValueInvalid s "Cannot extract parts")) ∧
    (segmentSplit s = some (p, d) →
      (∀ e, synonymExpected p = some e →
        Segment.init (some s) = .error (.segmentKindSynonymUsed p e)) ∧
      (synonymExpected p = none → decide (p ∈ kinds) = false →
        Segment.init (some s) = .error (.segmentKindUnknown p)) ∧
      (decide (p ∈ kinds) = true →
        Segment.init (some s) = .ok ⟨some p, some (digitsVal d.data)⟩)) ∧
    (synonymExpected "a" = some "alpha" ∧ synonymExpected "b" = some "beta" ∧
      synonymExpected "c" = some "rc" ∧ synonymExpected "pre" = some "rc" ∧
      synonymExpected "preview" = some "rc" ∧
      synonymExpected "r" = some "post" ∧
      synonymExpected "rev" = some "post") := by
  refine ⟨?_, ?_, rfl, rfl, rfl, rfl, rfl, rfl, rfl⟩
  · intro hsp
    simp only [Segment.init]
    rw [hsp]
  · intro hsp
    obtain ⟨hd1, hd2⟩ := segmentSplit_digits hsp
    refine ⟨?_, ?_, ?_⟩
    · intro e he
      simp only [Segment.init]
      rw [hsp]
      simp only [bind, Except.bind]
      rw [verify_kind_synonym he]
    · intro h1 h2
      simp only [Segment.init]
      rw [hsp]
      simp only [bind, Except.bind]
      rw [verify_kind_unknown h1 h2]
    · intro hmem
      simp only [Segment.init]
      rw [hsp]
      simp only [bind, Except.bind]
      rw [verify_kind_mem hmem,
        show (PyVal.str d) = .str (String.mk d.data) from rfl,
        verify_number_digits hd1 hd2]
      rfl

theorem segment_failure_classification_witness :
    Segment.init (some "a1") = .error (.segmentKindSynonymUsed "a" "alpha") ∧
    Segment.init (some "dev") = .error (.segmentValueInvalid "dev"
      "Cannot extract parts") ∧
    Segment.init (some "p1") = .error (.segmentKindUnknown "p") ∧
    Segment.init (some "dev1") = .ok ⟨some "dev", some (digitsVal "1".data)⟩ :=
  ⟨((segment_failure_classification "a1" "a" "1" (by decide)).2.1 rfl).1
      "alpha" rfl,
    (segment_failure_classification "dev" "" "" (by decide)).1 rfl,
    ((segment_failure_classification "p1" "p" "1" (by decide)).2.1 rfl).2.1
      rfl rfl,
    ((segment_failure_classification "dev1" "dev" "1" (by decide)).2.1 rfl).2.2
      rfl⟩

/-- C6 counterexample — the claim states that any string input with a
non-digit character raises `PositiveIntegerValueError`; but `"+0"` contains
the non-digit `'+'` and is accepted by `_verify_number` (Python's `int()`
allows an optional sign, surrounding whitespace, and underscores between
digits). -/
theorem verify_number_nondigit_accepted :
    _verify_number (.str "+0") "major" = .ok 0 ∧
    '+' ∈ "+0".data ∧ ('+').isDigit = false := by
  exact ⟨rfl, by decide, by decide⟩

/-- C6 amended — numeric field validation: a field is accepted iff it is
a non-negative integer or a string accepted by Python's base-10 `int()`
(digits optionally surrounded by whitespace, with an optional leading sign and
underscores between digits) whose value is non-negative; any other input
raises `PositiveIntegerValueError` naming the field, the offending value and
the cause — in particular `SemanticVersion(major=-1, minor=0, patch=0)` raises
it for field `"major"`. -/
theorem verify_number_validation (v : PyVal) (f : String) (i : Int)
    (s : String) :
    ((∃ n, _verify_number v f = .ok n) ↔
      ((∃ j : Int, v = .int j ∧ 0 ≤ j) ∨
        (∃ t j, v = .str t ∧ pyIntOfString t = some j ∧ 0 ≤ j))) ∧
    (v = .int i → i < 0 →
      _verify_number v f = .error (.positiveIntegerValue f (.int i) "Negative")) ∧
    (v = .str s → pyIntOfString s = none →
      _verify_number v f = .error (.positiveIntegerValue f (.str s)
        "invalid literal for int() with base 10")) ∧
    (v = .str s → pyIntOfString s = some i → i < 0 →
      _verify_number v f = .error (.positiveIntegerValue f (.int i) "Negative")) ∧
    (v = .other →
      _verify_number v f = .error (.positiveIntegerValue f .other
        "Neither int nor str")) ∧
    SemanticVersion.init (.int (-1)) (.int 0) (.int 0) none
      = .error (.positiveIntegerValue "major" (.int (-1)) "Negative") := by
  refine ⟨⟨?_, ?_⟩, ?_, ?_, ?_, ?_, rfl⟩
  · rintro ⟨n, hn⟩
    cases v with
    | int j =>
      simp only [_verify_number] at hn
      left
      refine ⟨j, rfl, ?_⟩
      by_contra hneg
      rw [if_pos (by omega)] at hn
      cases hn
    | str t =>
      right
      cases hp : pyIntOfString t with
      | none =>
        simp only [_verify_number, hp] at hn
        exact Except.noConfusion hn
      | some j =>
        refine ⟨t, j, rfl, hp, ?_⟩
        simp only [_verify_number, hp] at hn
        by_contra hneg
        rw [if_pos (by omega)] at hn
        cases hn
    | other => cases hn
  · rintro (⟨j, rfl, hj⟩ | ⟨t, j, rfl, hp, hj⟩)
    · exact ⟨j.toNat, by simp only [_verify_number]; rw [if_neg (by omega)]⟩
    · exact ⟨j.toNat,
        by simp only [_verify_number, hp]; rw [if_neg (by omega)]⟩
  · rintro rfl hneg
    simp only [_verify_number]
    rw [if_pos hneg]
  · rintro rfl hp
    simp only [_verify_number, hp]
  · rintro rfl hp hneg
    simp only [_verify_number, hp]
    rw [if_pos hneg]
  · rintro rfl
    rfl

theorem verify_number_validation_witness :
    _verify_number (.int (-1)) "major"
      = .error (.positiveIntegerValue "major" (.int (-1)) "Negative") :=
  (verify_number_validation (.int (-1)) "major" (-1) "").2.1 rfl (by decide)

/-- C7 — Display: `str` of a version yields `major.minor.patch`, followed
by `.kindNumber` only when a segment is present (an absent segment contributes
nothing, not even a trailing dot); an absent segment stringifies to the empty
string and a present one to `kindNumber`; in particular
`str(SemanticVersion(major=1, minor=0, patch=0, segment="dev1")) ==
"1.0.0.dev1"`. -/
theorem display_contract (v : SemVer) (hv : validSeg v.segment = true) :
    (v.segment.kind = none →
      Segment.str v.segment = some "" ∧
      SemVer.str v = some (pyNatRepr v.major ++ "." ++ pyNatRepr v.minor
        ++ "." ++ pyNatRepr v.patch)) ∧
    (∀ k n, v.segment.kind = some k → v.segment.number = some n →
      Segment.str v.segment = some (k ++ pyNatRepr n) ∧
      SemVer.str v = some (pyNatRepr v.major ++ "." ++ pyNatRepr v.minor
        ++ "." ++ pyNatRepr v.patch ++ "." ++ k ++ pyNatRepr n)) ∧
    (SemanticVersion.init (.int 1) (.int 0) (.int 0) (some "dev1")
        = .ok ⟨1, 0, 0, ⟨some "dev", some 1⟩⟩ ∧
      SemVer.str ⟨1, 0, 0, ⟨some "dev", some 1⟩⟩ = some "1.0.0.dev1") := by
  refine ⟨?_, ?_, rfl, by decide⟩
  · intro hk
    have hn : v.segment.number = none := by
      rcases validSeg_cases hv with hcase | ⟨k0, n0, hcase, _⟩ <;>
        rw [hcase] at hk ⊢ <;> simp_all
    exact ⟨by simp [Segment.str, hk, hn], by simp [SemVer.str, hk, hn]⟩
  · intro k n hk hn
    exact ⟨by simp [Segment.str, hk, hn], by simp [SemVer.str, hk, hn]⟩

theorem display_contract_witness :
    Segment.str (SegmentS.mk none none) = some "" ∧
    SemVer.str ⟨2, 3, 4, ⟨none, none⟩⟩ = some (pyNatRepr 2 ++ "." ++ pyNatRepr 3
      ++ "." ++ pyNatRepr 4) :=
  (display_contract ⟨2, 3, 4, ⟨none, none⟩⟩ rfl).1 rfl

theorem segHashKey_of_keyN {s t : SegmentS} (hs : validSeg s = true)
    (ht : validSeg t = true) (h : keyN s = keyN t) :
    segHashKey s = segHashKey t := by
  rcases validSeg_cases hs with rfl | ⟨k, n, rfl, hk⟩ <;>
    rcases validSeg_cases ht with rfl | ⟨k', n', rfl, hk'⟩
  · rfl
  · rcases hk' with rfl | rfl | rfl | rfl | rfl <;>
      simp_all [keyN, segmentRank, segHashKey]
  · rcases hk with rfl | rfl | rfl | rfl | rfl <;>
      simp_all [keyN, segmentRank, segHashKey]
  · rcases hk with rfl | rfl | rfl | rfl | rfl <;>
      rcases hk' with rfl | rfl | rfl | rfl | rfl <;>
      simp_all [keyN, segmentRank, segHashKey]

/-- C8 — Hashing is consistent with equality: two constructed segments
that compare equal per the ordering key have equal `(kind, number)` hash
tuples, and two versions that compare equal per the sort key have equal
`(major, minor, patch, segment)` hash tuples; since Python's `hash` is a
deterministic function of these tuples, equal values hash identically. -/
theorem hash_consistent_with_eq (s t : SegmentS) (a b : SemVer)
    (hs : validSeg s = true) (ht : validSeg t = true)
    (ha : validSeg a.segment = true) (hb : validSeg b.segment = true) :
    (segEq s t = some true → segHashKey s = segHashKey t) ∧
    (svEq a b = some true → svHashKey a = svHashKey b) := by
  constructor
  · intro h
    rw [segEq_valid hs ht] at h
    simp only [Option.some.injEq, decide_eq_true_eq] at h
    exact segHashKey_of_keyN hs ht h
  · intro h
    rw [svEq_valid ha hb] at h
    simp only [Option.some.injEq, decide_eq_true_eq] at h
    obtain ⟨h1, h2, h3, h4⟩ := h
    simp [svHashKey, h1, h2, h3, segHashKey_of_keyN ha hb h4]

theorem hash_consistent_with_eq_witness :
    segHashKey ⟨some "dev", some 1⟩ = segHashKey ⟨some "dev", some 1⟩ :=
  (hash_consistent_with_eq ⟨some "dev", some 1⟩ ⟨some "dev", some 1⟩
    (verMk 0 0 0) (verMk 0 0 0) rfl rfl rfl rfl).1 rfl

/-- C9 — For every segment or version and every operand of an unrelated
type, the `__eq__` and `__lt__` methods do not raise: they return the
`NotImplemented` sentinel so the language can fall back to its own
interpretation. -/
theorem foreign_comparison_not_implemented (s : SegmentS) (v : SemVer)
    (o o2 : PyObj) (ho : ∀ t, o ≠ PyObj.seg t) (ho2 : ∀ w, o2 ≠ PyObj.ver w) :
    (segEqOp s o = .notImplemented ∧ segLtOp s o = .notImplemented) ∧
    (svEqOp v o2 = .notImplemented ∧ svLtOp v o2 = .notImplemented) := by
  constructor
  · cases o with
    | seg t => exact absurd rfl (ho t)
    | ver w => exact ⟨rfl, rfl⟩
    | other => exact ⟨rfl, rfl⟩
  · cases o2 with
    | ver w => exact absurd rfl (ho2 w)
    | seg t => exact ⟨rfl, rfl⟩
    | other => exact ⟨rfl, rfl⟩

theorem foreign_comparison_not_implemented_witness :
    (segEqOp ⟨none, none⟩ .other = .notImplemented ∧
      segLtOp ⟨none, none⟩ .other = .notImplemented) ∧
    (svEqOp (verMk 0 0 0) .other = .notImplemented ∧
      svLtOp (verMk 0 0 0) .other = .notImplemented) :=
  foreign_comparison_not_implemented ⟨none, none⟩ (verMk 0 0 0) .other .other
    (fun t h => PyObj.noConfusion h) (fun w h => PyObj.noConfusion h)

/-- C10 — `from_string` strips leading and trailing whitespace from the
fourth dot-separated slot before segment construction, for non-empty segments
too: parsing behaves the same whether the fourth slot is pre-stripped or not,
`from_string "1.2.3. dev1"` succeeds and equals `from_string "1.2.3.dev1"`,
and `from_string "1.2.3."` succeeds and equals `from_string "1.2.3"`. -/
theorem from_string_strips_segment_slot (s : String) (a b c d : List Char)
    (h : splitDot s.data = [a, b, c, d]) :
    fromParts s [a, b, c, d] = fromParts s [a, b, c, pyStrip d] ∧
    from_string s = fromParts s [a, b, c, pyStrip d] ∧
    (from_string "1.2.3. dev1" = from_string "1.2.3.dev1" ∧
      from_string "1.2.3.dev1" = .ok ⟨1, 2, 3, ⟨some "dev", some 1⟩⟩) ∧
    (from_string "1.2.3." = from_string "1.2.3" ∧
      from_string "1.2.3" = .ok (verMk 1 2 3)) := by
  have key : fromParts s [a, b, c, d] = fromParts s [a, b, c, pyStrip d] := by
    rw [fromParts, fromParts,
      if_neg (show ¬([a, b, c, d].length > 4) by simp),
      if_neg (show ¬([a, b, c, pyStrip d].length > 4) by simp)]
    simp only [
      show (padParts [a, b, c, d]).getD 0 [] = a from rfl,
      show (padParts [a, b, c, d]).getD 1 [] = b from rfl,
      show (padParts [a, b, c, d]).getD 2 [] = c from rfl,
      show (padParts [a, b, c, d]).getD 3 [] = d from rfl,
      show (padParts [a, b, c, pyStrip d]).getD 0 [] = a from rfl,
      show (padParts [a, b, c, pyStrip d]).getD 1 [] = b from rfl,
      show (padParts [a, b, c, pyStrip d]).getD 2 [] = c from rfl,
      show (padParts [a, b, c, pyStrip d]).getD 3 [] = pyStrip d from rfl,
      pyStrip_idem]
  refine ⟨key, ?_, ⟨rfl, rfl⟩, ⟨rfl, rfl⟩⟩
  rw [from_string, h, key]

theorem from_string_strips_segment_slot_witness :
    fromParts "9.8.7.rc2" [['9'], ['8'], ['7'], ['r', 'c', '2']]
      = fromParts "9.8.7.rc2" [['9'], ['8'], ['7'], pyStrip ['r', 'c', '2']] :=
  (from_string_strips_segment_slot "9.8.7.rc2" ['9'] ['8'] ['7'] ['r', 'c', '2']
    rfl).1

end TemplatePython
